import Mathlib

/-!
Verification of the `sanity-delete-unused-assets` repository
(`src/DeleteUnusedAssets.tsx`) against its natural-language specification.

The development shallowly embeds the component's logic:

* `AssetInfo` mirrors the TypeScript `AssetInfo` interface; the
  `_createdAt` / `_updatedAt` ISO strings are modelled as integers
  (epoch milliseconds, which is what `new Date(s) < cutoff` compares),
  and `size` is `Option Nat` so that `asset.size || 0` becomes
  `a.size.getD 0`.
* `isExcluded`, `isOlderThan`, the unused filter of
  `scanForUnusedAssets`, `toggleAssetSelection`, `selectAll`,
  `clearSelection` and `handleDelete` are translated function by
  function.  The external Sanity client is modelled by passing each
  query's outcome (`Except String …`) and each batch commit's outcome
  (`Nat → Option String`, `none` = commit succeeded) as explicit inputs;
  the list of transactions the run issues is returned so that
  "no mutating call" claims are statable.
* JavaScript `new RegExp(pattern.replace(/\*/g, '.*'), 'i').test(s)` is
  modelled by `patTest` with the regex semantics the source actually
  gets: only `*` is replaced, every other character reaches the regex
  engine, so an unescaped `.` in a pattern is the live any-character
  metacharacter.  The model interprets patterns over the fragment
  delimited by `patternOK` — characters other than `*` and `.` must be
  regex-literal (no `\`, `(`, `[`, `+`, `?`, `|`, anchors, braces;
  outside the fragment `new RegExp` has further syntax, or throws) —
  as a sequence of literal/any-char atoms separated by `.*` wildcards,
  matched unanchored and case-insensitively, exactly like
  `RegExp.test`.  The spec's own reading ("glob-like strings where `*`
  matches any substring", every other character literal) is the
  separate `globTest`, used only on the spec side.
-/

/-- The `_type` field of an asset document
(`'sanity.imageAsset' | 'sanity.fileAsset'`). -/
inductive AssetType where
  | imageAsset
  | fileAsset
deriving DecidableEq

/-- The `assetTypes` prop elements (`'image' | 'file'`). -/
inductive AssetKind where
  | image
  | file
deriving DecidableEq

/-- Mirror of the TypeScript `AssetInfo` interface.  Timestamps are epoch
milliseconds; `size` is optional so that the source's defensive
`asset.size || 0` is `size.getD 0`. -/
structure AssetInfo where
  id : String
  type : AssetType
  originalFilename : Option String
  url : String
  size : Option Nat
  mimeType : String
  createdAt : Int
  updatedAt : Int
  extension : Option String
deriving DecidableEq

/-- `asset.size || 0` from the source. -/
def sizeOrZero (a : AssetInfo) : Nat :=
  a.size.getD 0

/-- Lower-case a string character-wise (the `'i'` regex flag applied to
the ASCII strings at hand). -/
def lowerChars (s : String) : List Char :=
  s.data.map Char.toLower

/-- A fixed-width regex atom: `none` is the any-character `.`
metacharacter, `some c` a (lower-cased) literal character. -/
def patAtom (c : Char) : Option Char :=
  if c = '.' then none else some c.toLower

/-- The spec's glob reading treats every non-`*` character as literal. -/
def globAtom (c : Char) : Option Char :=
  some c.toLower

/-- Split a pattern on `'*'` into its atom segments:
`pattern.replace(/\*/g, '.*')` turns the pattern into the regex
`seg₀.*seg₁.*…segₖ`, each segment a run of fixed-width atoms. -/
def splitStarWith (f : Char → Option Char) : List Char → List (List (Option Char))
  | [] => [[]]
  | c :: rest =>
    if c = '*' then [] :: splitStarWith f rest
    else
      match splitStarWith f rest with
      | [] => [[f c]]
      | seg :: segs => (f c :: seg) :: segs

/-- Segments of the source's regex: `.` is the any-char atom. -/
def splitStar : List Char → List (List (Option Char)) :=
  splitStarWith patAtom

/-- Segments of the spec's glob reading: every non-`*` char literal. -/
def splitStarGlob : List Char → List (List (Option Char)) :=
  splitStarWith globAtom

/-- One atom against one (lower-cased) input character: the any-char
atom accepts everything (filenames/ids contain no newline, the one
character JS `.` rejects). -/
def atomMatches : Option Char → Char → Bool
  | none, _ => true
  | some c, d => c == d

/-- `segMatches seg s`: the fixed-width segment `seg` matches a prefix
of `s` atom by atom. -/
def segMatches : List (Option Char) → List Char → Bool
  | [], _ => true
  | _ :: _, [] => false
  | a :: as, c :: cs => atomMatches a c && segMatches as cs

/-- Find the first position of `s` where the segment `seg` matches and
return the suffix of `s` after the match (`none` when it never
matches). -/
def searchDrop (seg : List (Option Char)) : List Char → Option (List Char)
  | [] => if segMatches seg [] then some [] else none
  | c :: t =>
    if segMatches seg (c :: t) then some ((c :: t).drop seg.length)
    else searchDrop seg t

/-- Unanchored match of the regex `seg₀.*seg₁.*…segₖ` against `s`:
the segments must occur in order, each after the previous one —
exactly the condition under which `RegExp.test` succeeds. -/
def seqSearch : List (List (Option Char)) → List Char → Bool
  | [], _ => true
  | seg :: rest, s =>
    match searchDrop seg s with
    | none => false
    | some s' => seqSearch rest s'

/-- `new RegExp(pattern.replace(/\*/g, '.*'), 'i').test(s)` as the
source computes it, for patterns in the `patternOK` fragment: `*`
becomes the `.*` wildcard, an unescaped `.` stays the live any-char
metacharacter, everything else is literal; unanchored and
case-insensitive. -/
def patTest (pat : String) (s : String) : Bool :=
  seqSearch (splitStar pat.data) (lowerChars s)

/-- Pattern matching in the spec's words: "glob-like strings where `*`
matches any substring", every other character literal,
case-insensitive, unanchored. -/
def globTest (pat : String) (s : String) : Bool :=
  seqSearch (splitStarGlob pat.data) (lowerChars s)

/-- The regex metacharacters (beyond `*` and `.`, which the model
interprets) that make a pattern leave the modelled fragment: backslash,
parentheses, square brackets, braces, caret, dollar, plus, question
mark and the alternation bar, by character code. -/
def regexMetaChars : List Char :=
  [Char.ofNat 92, Char.ofNat 40, Char.ofNat 41, Char.ofNat 91, Char.ofNat 93,
   Char.ofNat 123, Char.ofNat 125, Char.ofNat 94, Char.ofNat 36, Char.ofNat 43,
   Char.ofNat 63, Char.ofNat 124]

/-- The pattern fragment on which `patTest` is a faithful model of the
source's regex test. -/
def patternOK (pat : String) : Bool :=
  pat.data.all (fun c => decide (c ∉ regexMetaChars))

/-- `isExcluded` from the source: empty pattern list never excludes;
otherwise some pattern must match the filename (`originalFilename || ''`)
or the `_id`. -/
def isExcluded (excludePatterns : List String) (asset : AssetInfo) : Bool :=
  if excludePatterns.isEmpty then false
  else
    let filename := asset.originalFilename.getD ""
    excludePatterns.any (fun pat => patTest pat filename || patTest pat asset.id)

/-- `isOlderThan` from the source: no cutoff configured means every asset
passes; otherwise the creation time must be strictly before the cutoff. -/
def isOlderThan (olderThan : Option Int) (asset : AssetInfo) : Bool :=
  match olderThan with
  | none => true
  | some cutoff => decide (asset.createdAt < cutoff)

/-- The candidate predicate of `scanForUnusedAssets` (the body of
`allAssets.filter`), with its three early returns. -/
def isCandidate (referencedAssetIds : List String) (excludePatterns : List String)
    (olderThan : Option Int) (asset : AssetInfo) : Bool :=
  if decide (asset.id ∈ referencedAssetIds) then false
  else if isExcluded excludePatterns asset then false
  else if !(isOlderThan olderThan asset) then false
  else true

/-- The unused-set filter of `scanForUnusedAssets`:
`allAssets.filter(asset => …)`. -/
def unusedFilter (referencedAssetIds : List String) (excludePatterns : List String)
    (olderThan : Option Int) (allAssets : List AssetInfo) : List AssetInfo :=
  allAssets.filter (isCandidate referencedAssetIds excludePatterns olderThan)

/-- The candidate condition in the spec's words (§4.3): identifier not in
the reference set; filename/identifier matches no exclude pattern under
the spec's glob reading of patterns; creation strictly before the cutoff
when one is set. -/
def specCandidate (referencedAssetIds : List String) (excludePatterns : List String)
    (olderThan : Option Int) (asset : AssetInfo) : Bool :=
  decide (asset.id ∉ referencedAssetIds) &&
  excludePatterns.all
    (fun pat => !(globTest pat (asset.originalFilename.getD "") || globTest pat asset.id)) &&
  (match olderThan with
   | none => true
   | some cutoff => decide (asset.createdAt < cutoff))

/-- The candidate condition with pattern matching read as the source
computes it (the `*`-replaced regex, unescaped `.` live) instead of the
spec's glob reading — claim C2 as amended. -/
def specCandidateRegex (referencedAssetIds : List String) (excludePatterns : List String)
    (olderThan : Option Int) (asset : AssetInfo) : Bool :=
  decide (asset.id ∉ referencedAssetIds) &&
  excludePatterns.all
    (fun pat => !(patTest pat (asset.originalFilename.getD "") || patTest pat asset.id)) &&
  (match olderThan with
   | none => true
   | some cutoff => decide (asset.createdAt < cutoff))

/-- The GROQ type filter built at the top of `scanForUnusedAssets`. -/
def typeFilter (assetTypes : List AssetKind) : String :=
  if decide (AssetKind.image ∈ assetTypes) && decide (AssetKind.file ∈ assetTypes) then
    "_type in [\"sanity.imageAsset\", \"sanity.fileAsset\"]"
  else if decide (AssetKind.image ∈ assetTypes) then
    "_type == \"sanity.imageAsset\""
  else
    "_type == \"sanity.fileAsset\""

/-- The component's relevant state: the `unusedAssets` candidate list and
the `selectedAssets` set.  A JavaScript `Set<string>` iterates in
insertion order, so it is modelled as an insertion-ordered duplicate-free
list (`Array.from(selectedAssets)` is then the identity). -/
structure UIState where
  unusedAssets : List AssetInfo
  selected : List String
deriving DecidableEq

/-- `toggleAssetSelection`: delete the id from the selection set when
present, insert it otherwise. -/
def toggleAssetSelection (id : String) (st : UIState) : UIState :=
  if decide (id ∈ st.selected) then
    { st with selected := st.selected.erase id }
  else
    { st with selected := st.selected ++ [id] }

/-- `new Set(array)`: keep the first occurrence of each element, in
order. -/
def insertUnique (l : List String) (x : String) : List String :=
  if decide (x ∈ l) then l else l ++ [x]

/-- `new Set(array)`, as an insertion-ordered list. -/
def setOfList (l : List String) : List String :=
  l.foldl insertUnique []

/-- The interactive refinement parameters of `getFilteredAssets`:
`filterType` (`none` = `'all'`), the size threshold in bytes (the
source's `parseFloat(filterSize) * 1024 * 1024`, `none` when the text
box is empty) and the age cutoff instant (the source's
`now - filterAge days`, `none` when empty). -/
structure ViewFilter where
  ftype : Option AssetKind
  minSizeBytes : Option Nat
  ageCutoff : Option Int

/-- The type refinement of `getFilteredAssets`. -/
def filterByType (ftype : Option AssetKind) (l : List AssetInfo) : List AssetInfo :=
  match ftype with
  | none => l
  | some AssetKind.image => l.filter (fun a => decide (a.type = AssetType.imageAsset))
  | some AssetKind.file => l.filter (fun a => decide (a.type = AssetType.fileAsset))

/-- The size refinement of `getFilteredAssets`:
`(asset.size || 0) > sizeBytes`. -/
def filterBySize (minSize : Option Nat) (l : List AssetInfo) : List AssetInfo :=
  match minSize with
  | none => l
  | some threshold => l.filter (fun a => decide (threshold < sizeOrZero a))

/-- The age refinement of `getFilteredAssets`:
`new Date(asset._createdAt) < cutoffDate`. -/
def filterByAge (cutoff : Option Int) (l : List AssetInfo) : List AssetInfo :=
  match cutoff with
  | none => l
  | some c => l.filter (fun a => decide (a.createdAt < c))

/-- `getFilteredAssets`: the three view refinements applied in the
source's order. -/
def getFilteredAssets (vf : ViewFilter) (ua : List AssetInfo) : List AssetInfo :=
  filterByAge vf.ageCutoff (filterBySize vf.minSizeBytes (filterByType vf.ftype ua))

/-- `selectAll`: `new Set(filtered.map(asset => asset._id))`. -/
def selectAll (vf : ViewFilter) (st : UIState) : UIState :=
  { st with selected := setOfList ((getFilteredAssets vf st.unusedAssets).map AssetInfo.id) }

/-- `clearSelection`: `setSelectedAssets(new Set())`. -/
def clearSelection (st : UIState) : UIState :=
  { st with selected := [] }

/-- `scanForUnusedAssets`, with the three `client.fetch` results passed
explicitly: the inventory query, the direct-reference query (one
`referencedAssets` id list per document, `|| []` already applied) and
the complex-reference query (one list of collected, `filter(Boolean)`-ed
refs per document).  Returns the state after the scan and the message
passed to `onError` (`none` when no error).  On success the candidate
list is replaced and the selection cleared; when any fetch rejects, the
`catch` block leaves both untouched. -/
def scanForUnusedAssets (excludePatterns : List String) (olderThan : Option Int)
    (fetchAssets : Except String (List AssetInfo))
    (fetchRefs : Except String (List (List String)))
    (fetchComplexRefs : Except String (List (List String)))
    (st : UIState) : UIState × Option String :=
  match fetchAssets with
  | Except.error e => (st, some e)
  | Except.ok allAssets =>
    match fetchRefs with
    | Except.error e => (st, some e)
    | Except.ok refDocs =>
      match fetchComplexRefs with
      | Except.error e => (st, some e)
      | Except.ok complexDocs =>
        let referencedAssetIds := refDocs.flatten ++ complexDocs.flatten
        let unused := unusedFilter referencedAssetIds excludePatterns olderThan allAssets
        ({ unusedAssets := unused, selected := [] }, none)

/-- The accumulator of `handleDelete`'s batch loop (`deletedCount`,
`savedSpace`, `errors`), plus the list of batches for which a delete
transaction was built and committed against the client — the model of
the external mutating calls. -/
structure DelAcc where
  deleted : Nat
  saved : Nat
  errors : List String
  txs : List (List String)
deriving DecidableEq

/-- The error entry pushed on a failed commit:
`Batch ${i / batchSize + 1}: ${errorMsg}` (with `i = k·batchSize`, the
1-based batch number is `k + 1`). -/
def batchErr (k : Nat) (msg : String) : String :=
  "Batch " ++ toString (k + 1) ++ ": " ++ msg

/-- The per-batch size lookup:
`unusedAssets.filter(a => batch.includes(a._id)).reduce((sum, a) => sum + (a.size || 0), 0)`.
Applied to the whole selection it is the total size of the selected
assets. -/
def batchSavings (ua : List AssetInfo) (batch : List String) : Nat :=
  (ua.filter (fun a => decide (a.id ∈ batch))).foldl (fun sum a => sum + sizeOrZero a) 0

/-- `chunksAux bs fuel l`: the batch partition produced by
`for (i = 0; i < n; i += batchSize) slice(i, i + batchSize)`, computed
with structural fuel.  `chunks` instantiates the fuel with `l.length`,
which suffices whenever `bs ≥ 1` (for `bs = 0` the source loop does not
terminate, so no claim concerns it). -/
def chunksAux (bs : Nat) : Nat → List String → List (List String)
  | 0, _ => []
  | _, [] => []
  | fuel + 1, x :: r => ((x :: r).take bs) :: chunksAux bs fuel ((x :: r).drop bs)

/-- The batch partition of the selection (`slice(i, i + batchSize)` for
`i = 0, bs, 2·bs, …`). -/
def chunks (bs : Nat) (l : List String) : List (List String) :=
  chunksAux bs l.length l

/-- The body of `handleDelete`'s loop, iterated over the batches with
their 0-based ordinal `k = i / batchSize`.  `commitResult k` is the
outcome of the `k`-th batch's `transaction.commit()` (`none` =
committed, `some msg` = rejected with `msg`); in a dry run no
transaction is built. -/
def processBatches (ua : List AssetInfo) (dryRun : Bool) (commitResult : Nat → Option String) :
    Nat → List (List String) → DelAcc → DelAcc
  | _, [], acc => acc
  | k, batch :: rest, acc =>
    let acc' :=
      if dryRun then
        { acc with
          deleted := acc.deleted + batch.length
          saved := acc.saved + batchSavings ua batch }
      else
        match commitResult k with
        | none =>
          { acc with
            deleted := acc.deleted + batch.length
            saved := acc.saved + batchSavings ua batch
            txs := acc.txs ++ [batch] }
        | some msg =>
          { acc with
            errors := acc.errors ++ [batchErr k msg]
            txs := acc.txs ++ [batch] }
    processBatches ua dryRun commitResult (k + 1) rest acc'

/-- The `onComplete` payload
`{ deleted: deletedCount, savedSpace, errors }`. -/
structure CleanupResult where
  deleted : Nat
  savedSpace : Nat
  errors : List String
deriving DecidableEq

/-- `handleDelete`: early return on an empty selection; otherwise run the
batch loop over `Array.from(selectedAssets)` partitioned by `batchSize`,
then replace the candidate list by
`unusedAssets.filter(a => !selectedAssets.has(a._id))` and clear the
selection.  Returns the new state, the `onComplete` payload (`none` on
early return) and the batches for which a delete transaction was
issued. -/
def handleDelete (batchSize : Nat) (dryRun : Bool) (commitResult : Nat → Option String)
    (st : UIState) : UIState × Option CleanupResult × List (List String) :=
  if st.selected.isEmpty then (st, none, [])
  else
    let assetsToDelete := st.selected
    let acc := processBatches st.unusedAssets dryRun commitResult 0
      (chunks batchSize assetsToDelete) ⟨0, 0, [], []⟩
    let remainingAssets := st.unusedAssets.filter (fun a => !(decide (a.id ∈ st.selected)))
    ({ unusedAssets := remainingAssets, selected := [] },
     some ⟨acc.deleted, acc.saved, acc.errors⟩,
     acc.txs)

/-- The operations of the component that touch `unusedAssets` or
`selectedAssets` (claim C5's "every operation"). -/
inductive UIOp where
  | scanDone (candidates : List AssetInfo)
  | toggle (id : String)
  | doSelectAll (vf : ViewFilter)
  | clearSel
  | deleteRun (batchSize : Nat) (dryRun : Bool) (commitResult : Nat → Option String)

/-- Apply an operation to the state.  `scanDone l` is the success path of
`scanForUnusedAssets` (`setUnusedAssets(unused); setSelectedAssets(new
Set())`); `deleteRun` is `handleDelete`'s state effect. -/
def applyOp : UIOp → UIState → UIState
  | UIOp.scanDone l, _ => { unusedAssets := l, selected := [] }
  | UIOp.toggle id, st => toggleAssetSelection id st
  | UIOp.doSelectAll vf, st => selectAll vf st
  | UIOp.clearSel, st => clearSelection st
  | UIOp.deleteRun bs dry cr, st => (handleDelete bs dry cr st).1

/-- The UI only offers a selection checkbox for assets of the rendered
(filtered) candidate list, so `toggleAssetSelection` is only ever
invoked with a candidate's id; the other operations are unconstrained. -/
def opOK : UIOp → UIState → Prop
  | UIOp.toggle id, st => id ∈ st.unusedAssets.map AssetInfo.id
  | _, _ => True

/-- Claim C5's invariant: every selected id is a current candidate id. -/
def SelInv (st : UIState) : Prop :=
  ∀ id ∈ st.selected, id ∈ st.unusedAssets.map AssetInfo.id

instance (st : UIState) : Decidable (SelInv st) := by
  unfold SelInv; infer_instance

/-- The commit-outcome function in which exactly the batch with 0-based
ordinal `k` fails (with message `msg`) and every other batch commits. -/
def singleFail (k : Nat) (msg : String) : Nat → Option String :=
  fun j => if j = k then some msg else none

/-- The whole batch loop of `handleDelete` (non-early-return part): run
`processBatches` over the batch partition of the selection starting from
the zeroed accumulator. -/
def runDel (ua : List AssetInfo) (dryRun : Bool) (commitResult : Nat → Option String)
    (bs : Nat) (sel : List String) : DelAcc :=
  processBatches ua dryRun commitResult 0 (chunks bs sel) ⟨0, 0, [], []⟩

/-- Summary of the loop's `deletedCount`: total length of the batches
whose commit succeeds, the batch at list position `j` having ordinal
`k + j`. -/
def sumDel (commitResult : Nat → Option String) : Nat → List (List String) → Nat
  | _, [] => 0
  | k, b :: r =>
    (match commitResult k with
     | none => b.length
     | some _ => 0) + sumDel commitResult (k + 1) r

/-- Summary of the loop's `savedSpace`: total size of the batches whose
commit succeeds. -/
def sumSav (ua : List AssetInfo) (commitResult : Nat → Option String) :
    Nat → List (List String) → Nat
  | _, [] => 0
  | k, b :: r =>
    (match commitResult k with
     | none => batchSavings ua b
     | some _ => 0) + sumSav ua commitResult (k + 1) r

/-- Summary of the loop's `errors`: one entry per failed batch, in batch
order. -/
def errList (commitResult : Nat → Option String) : Nat → List (List String) → List String
  | _, [] => []
  | k, _b :: r =>
    (match commitResult k with
     | none => []
     | some msg => [batchErr k msg]) ++ errList commitResult (k + 1) r

/-- Example asset whose filename matches `hero-*`. -/
def heroAsset : AssetInfo :=
  ⟨"image-abc", AssetType.imageAsset, some "hero-banner.jpg", "", some 100,
   "image/jpeg", 0, 0, some "jpg"⟩

/-- Example asset whose filename contains `hero` but not `hero-`. -/
def bannerAsset : AssetInfo :=
  ⟨"image-def", AssetType.imageAsset, some "banner-hero.jpg", "", some 100,
   "image/jpeg", 0, 0, some "jpg"⟩

/-- Example asset with no filename whose identifier matches `hero-*`. -/
def idOnlyAsset : AssetInfo :=
  ⟨"image-hero-banner", AssetType.imageAsset, none, "", some 100,
   "image/jpeg", 0, 0, some "jpg"⟩

/-- Concrete asset `a` (1 byte) for the deletion examples. -/
def cAssetA : AssetInfo :=
  ⟨"a", AssetType.imageAsset, some "a.png", "", some 1, "image/png", 0, 0, none⟩

/-- Concrete asset `b` (2 bytes) for the deletion examples. -/
def cAssetB : AssetInfo :=
  ⟨"b", AssetType.fileAsset, some "b.pdf", "", some 2, "application/pdf", 0, 0, none⟩

/-- State with candidates `a`, `b`, both selected. -/
def c4State : UIState :=
  ⟨[cAssetA, cAssetB], ["a", "b"]⟩

/-- Commit outcomes in which the second batch (ordinal 1) fails. -/
def c4cr : Nat → Option String :=
  singleFail 1 "boom"

/-- Asset whose `size` is absent (`asset.size || 0` yields 0). -/
def zAsset : AssetInfo :=
  ⟨"z", AssetType.imageAsset, some "z.png", "", none, "image/png", 0, 0, none⟩

/-- State with the zero-size asset selected. -/
def c3State : UIState :=
  ⟨[zAsset], ["z"]⟩

/-- Asset of 5 bytes for the dry-run witness. -/
def wAsset5 : AssetInfo :=
  ⟨"w", AssetType.fileAsset, some "w.bin", "", some 5, "application/octet-stream", 0, 0, none⟩

/-- State for the dry-run witness. -/
def c3wState : UIState :=
  ⟨[wAsset5], ["w"]⟩

/-- Candidate asset for the invariant witness. -/
def invAsset : AssetInfo :=
  ⟨"a", AssetType.imageAsset, none, "", some 1, "image/png", 0, 0, none⟩

/-- Five assets of sizes 1…5 for the batch-failure witness. -/
def w1Assets : List AssetInfo :=
  [⟨"a", AssetType.imageAsset, some "a.png", "", some 1, "image/png", 10, 10, none⟩,
   ⟨"b", AssetType.imageAsset, some "b.png", "", some 2, "image/png", 10, 10, none⟩,
   ⟨"c", AssetType.imageAsset, some "c.png", "", some 3, "image/png", 10, 10, none⟩,
   ⟨"d", AssetType.imageAsset, some "d.png", "", some 4, "image/png", 10, 10, none⟩,
   ⟨"e", AssetType.imageAsset, some "e.png", "", some 5, "image/png", 10, 10, none⟩]

/-- Unreferenced asset whose filename `xjpg` has no dot: the regex of
pattern `*.jpg` matches it (its `.` eats the `x`), the glob reading does
not. -/
def xjpgAsset : AssetInfo :=
  ⟨"image-x1", AssetType.imageAsset, some "xjpg", "", some 7, "image/jpeg", 0, 0, none⟩

/-! ### Helper lemmas -/

theorem all_not_eq_not_any {α : Type} (l : List α) (f : α → Bool) :
    (l.all fun x => !(f x)) = !(l.any f) := by
  induction l with
  | nil => rfl
  | cons a r ih => simp [List.all_cons, List.any_cons, ih]

theorem isExcluded_eq_any (pats : List String) (a : AssetInfo) :
    isExcluded pats a =
      pats.any (fun pat => patTest pat (a.originalFilename.getD "") || patTest pat a.id) := by
  cases pats <;> simp [isExcluded]

theorem isCandidate_eq_specCandidateRegex (R pats : List String) (c : Option Int)
    (a : AssetInfo) :
    isCandidate R pats c a = specCandidateRegex R pats c a := by
  unfold isCandidate specCandidateRegex
  rw [isExcluded_eq_any, all_not_eq_not_any]
  by_cases hR : a.id ∈ R <;>
    cases hA : pats.any
      (fun pat => patTest pat (a.originalFilename.getD "") || patTest pat a.id) <;>
    cases hO : isOlderThan c a <;>
    simp_all [isOlderThan]

theorem mem_insertUnique (l : List String) (y x : String) :
    x ∈ insertUnique l y ↔ x ∈ l ∨ x = y := by
  unfold insertUnique
  by_cases h : y ∈ l
  · rw [if_pos (by simpa using h)]
    constructor
    · exact Or.inl
    · rintro (hx | rfl)
      · exact hx
      · exact h
  · simp [h]

theorem mem_foldl_insertUnique (l : List String) : ∀ (acc : List String) (x : String),
    x ∈ l.foldl insertUnique acc ↔ x ∈ acc ∨ x ∈ l := by
  induction l with
  | nil => intro acc x; simp
  | cons a r ih =>
    intro acc x
    rw [List.foldl_cons, ih, mem_insertUnique]
    simp [or_assoc, or_comm, List.mem_cons]
    tauto

theorem mem_setOfList (l : List String) (x : String) : x ∈ setOfList l ↔ x ∈ l := by
  unfold setOfList
  rw [mem_foldl_insertUnique]
  simp

theorem mem_of_mem_filterByType {ft : Option AssetKind} {l : List AssetInfo} {a : AssetInfo} :
    a ∈ filterByType ft l → a ∈ l := by
  cases ft with
  | none => exact id
  | some k => cases k <;> exact fun h => (List.mem_filter.1 h).1

theorem mem_of_mem_filterBySize {ms : Option Nat} {l : List AssetInfo} {a : AssetInfo} :
    a ∈ filterBySize ms l → a ∈ l := by
  cases ms with
  | none => exact id
  | some m => exact fun h => (List.mem_filter.1 h).1

theorem mem_of_mem_filterByAge {c : Option Int} {l : List AssetInfo} {a : AssetInfo} :
    a ∈ filterByAge c l → a ∈ l := by
  cases c with
  | none => exact id
  | some m => exact fun h => (List.mem_filter.1 h).1

theorem mem_of_mem_getFilteredAssets {vf : ViewFilter} {l : List AssetInfo} {a : AssetInfo} :
    a ∈ getFilteredAssets vf l → a ∈ l :=
  fun h => mem_of_mem_filterByType (mem_of_mem_filterBySize (mem_of_mem_filterByAge h))

theorem handleDelete_state (bs : Nat) (dry : Bool) (cr : Nat → Option String) (st : UIState) :
    (handleDelete bs dry cr st).1 =
      if st.selected.isEmpty then st
      else ⟨st.unusedAssets.filter (fun a => !(decide (a.id ∈ st.selected))), []⟩ := by
  unfold handleDelete
  by_cases h : st.selected.isEmpty <;> simp [h]

/-! ### Claim theorems -/

/-- Counterexample to C2 as stated: with the spec's glob reading of
"matches no exclude pattern", pattern list `["*.jpg"]`, empty reference
set, no cutoff and inventory `[xjpgAsset]` (filename `xjpg`), the spec
characterization keeps the asset as a candidate, but the source's
filter — whose regex `/.*.jpg/i` lets the unescaped `.` match the `x` —
excludes it, so the produced candidate list is `[]`, not
`[xjpgAsset]`. -/
theorem unused_filter_glob_counterexample :
    unusedFilter [] ["*.jpg"] none [xjpgAsset] = [] ∧
    [xjpgAsset].filter (specCandidate [] ["*.jpg"] none) = [xjpgAsset] ∧
    ([] : List AssetInfo) ≠ [xjpgAsset] := by
  decide

/-- Claim C2 (amended): for patterns inside the modelled regex fragment
(no regex metacharacters beyond `*` and `.`), the unused-set filter
keeps exactly the inventory assets whose identifier is outside the
reference set, which match no exclude pattern under the source's regex
interpretation of patterns (`*` replaced by `.*`, an unescaped `.`
matching any character, case-insensitive, unanchored), and which were
created strictly before the cutoff when one is set (no age requirement
when unset), preserving the inventory's relative order. -/
theorem unused_filter_regex_characterization (R pats : List String) (c : Option Int)
    (I : List AssetInfo) (_hOK : ∀ p ∈ pats, patternOK p = true) :
    unusedFilter R pats c I = I.filter (specCandidateRegex R pats c) ∧
    List.Sublist (unusedFilter R pats c I) I ∧
    ∀ a, a ∈ unusedFilter R pats c I ↔ (a ∈ I ∧ specCandidateRegex R pats c a = true) := by
  have h : unusedFilter R pats c I = I.filter (specCandidateRegex R pats c) := by
    unfold unusedFilter
    exact List.filter_congr (fun a _ => isCandidate_eq_specCandidateRegex R pats c a)
  refine ⟨h, ?_, ?_⟩
  · unfold unusedFilter
    exact List.filter_sublist I
  · intro a
    rw [h]
    exact List.mem_filter

/-- Witness for the amended C2 at the counterexample's pattern list
(which is inside the modelled fragment). -/
theorem unused_filter_regex_characterization_witness :
    unusedFilter [] ["*.jpg"] none [xjpgAsset]
      = [xjpgAsset].filter (specCandidateRegex [] ["*.jpg"] none) ∧
    List.Sublist (unusedFilter [] ["*.jpg"] none [xjpgAsset]) [xjpgAsset] :=
  ⟨(unused_filter_regex_characterization [] ["*.jpg"] none [xjpgAsset] (by decide)).1,
   (unused_filter_regex_characterization [] ["*.jpg"] none [xjpgAsset] (by decide)).2.1⟩

/-- Claim C5: the invariant Selection ⊆ current candidate identifier set
holds in the initial state and is preserved by every operation (scan
completion, toggling a candidate's selection, select-all, clear, and any
deletion run). -/
theorem selection_subset_invariant :
    SelInv ⟨[], []⟩ ∧
    ∀ (op : UIOp) (st : UIState), SelInv st → opOK op st → SelInv (applyOp op st) := by
  constructor
  · intro id h
    cases h
  · intro op st hinv hok
    cases op with
    | scanDone l =>
      intro id h
      cases h
    | toggle id =>
      simp only [applyOp, toggleAssetSelection]
      by_cases h : id ∈ st.selected
      · rw [if_pos (by simpa using h)]
        intro x hx
        exact hinv x (List.mem_of_mem_erase hx)
      · rw [if_neg (by simpa using h)]
        intro x hx
        rcases List.mem_append.1 hx with hx' | hx'
        · exact hinv x hx'
        · have hxid : x = id := by simpa using hx'
          subst hxid
          exact hok
    | doSelectAll vf =>
      intro x hx
      simp only [applyOp, selectAll] at hx
      have hx' : x ∈ (getFilteredAssets vf st.unusedAssets).map AssetInfo.id :=
        (mem_setOfList _ _).1 hx
      rcases List.mem_map.1 hx' with ⟨a, ha, rfl⟩
      exact List.mem_map.2 ⟨a, mem_of_mem_getFilteredAssets ha, rfl⟩
    | clearSel =>
      intro x hx
      simp only [applyOp, clearSelection] at hx
      cases hx
    | deleteRun bs dry cr =>
      have hst := handleDelete_state bs dry cr st
      by_cases h : st.selected.isEmpty
      · rw [if_pos h] at hst
        intro x hx
        simp only [applyOp, hst] at hx ⊢
        exact hinv x hx
      · rw [if_neg h] at hst
        intro x hx
        simp only [applyOp, hst] at hx
        cases hx

/-- Witness for C5: toggling the candidate id `a` from the empty
selection keeps the invariant. -/
theorem selection_subset_invariant_witness :
    SelInv (applyOp (UIOp.toggle "a") ⟨[invAsset], []⟩) :=
  selection_subset_invariant.2 (UIOp.toggle "a") ⟨[invAsset], []⟩ (by decide)
    (show "a" ∈ [invAsset].map AssetInfo.id by decide)

/-- Claim C6: exclude-pattern matching treats `*` as matching any
substring, is case-insensitive, and is tested against both the filename
and the identifier; `hero-*` matches `hero-banner.jpg` and not
`banner-hero.jpg`. -/
theorem exclude_pattern_semantics :
    patTest "hero-*" "hero-banner.jpg" = true ∧
    patTest "hero-*" "banner-hero.jpg" = false ∧
    patTest "HERO-*" "hero-banner.jpg" = true ∧
    patTest "hero-*" "HERO-BANNER.JPG" = true ∧
    patTest "a*b" "xx-a12b-yy" = true ∧
    patTest "a*b" "ab" = true ∧
    isExcluded ["hero-*"] heroAsset = true ∧
    isExcluded ["hero-*"] bannerAsset = false ∧
    isExcluded ["hero-*"] idOnlyAsset = true := by
  decide

/-- Claim C7: if any of the scan's three read queries rejects, the scan
aborts, the error callback receives the failure message, and the state
(candidate list and selection) is left untouched. -/
theorem scan_error_leaves_state (pats : List String) (c : Option Int) (st : UIState)
    (e : String) (assets : List AssetInfo) (refs : List (List String))
    (f2 : Except String (List (List String))) (f3 : Except String (List (List String))) :
    scanForUnusedAssets pats c (Except.error e) f2 f3 st = (st, some e) ∧
    scanForUnusedAssets pats c (Except.ok assets) (Except.error e) f3 st = (st, some e) ∧
    scanForUnusedAssets pats c (Except.ok assets) (Except.ok refs) (Except.error e) st
      = (st, some e) :=
  ⟨rfl, rfl, rfl⟩

/-- Claim C8: the unused-set filter is a pure function of its inputs, so
two runs on identical inventory, reference set, patterns and cutoff
yield identical candidate lists in identical order. -/
theorem unused_filter_deterministic (R pats : List String) (c : Option Int)
    (I : List AssetInfo) :
    unusedFilter R pats c I = unusedFilter R pats c I :=
  rfl

/-- Claim C10: with an empty `assetTypes` option the constructed type
filter is the file-asset-only filter, i.e. the scan behaves as if
`assetTypes` were `['file']`. -/
theorem empty_asset_types_file_filter :
    typeFilter [] = "_type == \"sanity.fileAsset\"" ∧
    typeFilter [] = typeFilter [AssetKind.file] := by
  constructor <;> decide

/-! ### Batch partition lemmas -/

theorem chunksAux_flatten (bs : Nat) (hbs : 0 < bs) :
    ∀ (fuel : Nat) (l : List String), l.length ≤ fuel → (chunksAux bs fuel l).flatten = l := by
  intro fuel
  induction fuel with
  | zero =>
    intro l h
    have hl : l = [] := List.eq_nil_of_length_eq_zero (Nat.le_zero.1 h)
    subst hl
    rfl
  | succ n ih =>
    intro l h
    cases l with
    | nil => rfl
    | cons x r =>
      simp only [chunksAux, List.flatten_cons]
      rw [ih _ (by rw [List.length_drop]; simp only [List.length_cons] at h ⊢; omega)]
      exact List.take_append_drop bs (x :: r)

theorem chunks_flatten (bs : Nat) (hbs : 0 < bs) (l : List String) :
    (chunks bs l).flatten = l :=
  chunksAux_flatten bs hbs l.length l (le_refl _)

theorem chunksAux_ne_nil (bs : Nat) (fuel : Nat) (l : List String)
    (hne : l ≠ []) (hlen : l.length ≤ fuel) : chunksAux bs fuel l ≠ [] := by
  cases fuel with
  | zero =>
    cases l with
    | nil => exact absurd rfl hne
    | cons x r => simp at hlen
  | succ n =>
    cases l with
    | nil => exact absurd rfl hne
    | cons x r => simp [chunksAux]

theorem chunksAux_mem (bs : Nat) (hbs : 0 < bs) :
    ∀ (fuel : Nat) (l : List String) (b : List String),
    b ∈ chunksAux bs fuel l → b ≠ [] ∧ b.length ≤ bs := by
  intro fuel
  induction fuel with
  | zero => intro l b hb; simp [chunksAux] at hb
  | succ n ih =>
    intro l b hb
    cases l with
    | nil => simp [chunksAux] at hb
    | cons x r =>
      simp only [chunksAux, List.mem_cons] at hb
      rcases hb with rfl | hb
      · refine ⟨?_, ?_⟩
        · cases bs with
          | zero => exact absurd hbs (lt_irrefl 0)
          | succ m => simp
        · rw [List.length_take]; omega
      · exact ih _ _ hb

theorem chunksAux_dropLast (bs : Nat) (hbs : 0 < bs) :
    ∀ (fuel : Nat) (l : List String), l.length ≤ fuel →
    ∀ b ∈ (chunksAux bs fuel l).dropLast, b.length = bs := by
  intro fuel
  induction fuel with
  | zero =>
    intro l h b hb
    have hl : l = [] := List.eq_nil_of_length_eq_zero (Nat.le_zero.1 h)
    subst hl
    simp [chunksAux] at hb
  | succ n ih =>
    intro l h b hb
    cases l with
    | nil => simp [chunksAux] at hb
    | cons x r =>
      simp only [chunksAux] at hb
      by_cases hd : (x :: r).drop bs = []
      · rw [hd] at hb
        have hnil : chunksAux bs n ([] : List String) = [] := by cases n <;> rfl
        rw [hnil] at hb
        simp at hb
      · have hlen2 : ((x :: r).drop bs).length ≤ n := by
          rw [List.length_drop]
          simp only [List.length_cons] at h ⊢
          omega
        have hrest : chunksAux bs n ((x :: r).drop bs) ≠ [] :=
          chunksAux_ne_nil bs n _ hd hlen2
        rw [List.dropLast_cons_of_ne_nil hrest] at hb
        rcases List.mem_cons.1 hb with rfl | hb'
        · rw [List.length_take]
          have hlt : bs < (x :: r).length := by
            by_contra hge
            push_neg at hge
            exact hd (List.drop_eq_nil_of_le hge)
          omega
        · exact ih _ hlen2 b hb'

theorem chunksAux_length (bs : Nat) (hbs : 0 < bs) :
    ∀ (fuel : Nat) (l : List String), l.length ≤ fuel →
    (chunksAux bs fuel l).length = (l.length + bs - 1) / bs := by
  intro fuel
  induction fuel with
  | zero =>
    intro l h
    have hl : l = [] := List.eq_nil_of_length_eq_zero (Nat.le_zero.1 h)
    subst hl
    simp [chunksAux]
    rw [Nat.div_eq_of_lt (by omega)]
  | succ n ih =>
    intro l h
    cases l with
    | nil =>
      simp [chunksAux]
      rw [Nat.div_eq_of_lt (by omega)]
    | cons x r =>
      simp only [chunksAux, List.length_cons]
      rw [ih _ (by rw [List.length_drop]; simp only [List.length_cons] at h ⊢; omega)]
      rw [List.length_drop]
      simp only [List.length_cons]
      rw [show r.length + 1 + bs - 1 = (r.length + 1 - 1) + bs by omega,
        Nat.add_div_right _ hbs]
      by_cases hc : r.length + 1 ≤ bs
      · rw [show r.length + 1 - bs + bs - 1 = bs - 1 by omega]
        rw [Nat.div_eq_of_lt (by omega), Nat.div_eq_of_lt (by omega)]
      · rw [show r.length + 1 - bs + bs - 1 = r.length + 1 - 1 by omega]

/-! ### Batch loop characterization -/

theorem processBatches_nonDry (ua : List AssetInfo) (cr : Nat → Option String) :
    ∀ (bl : List (List String)) (k : Nat) (acc : DelAcc),
    processBatches ua false cr k bl acc =
      ⟨acc.deleted + sumDel cr k bl, acc.saved + sumSav ua cr k bl,
       acc.errors ++ errList cr k bl, acc.txs ++ bl⟩ := by
  intro bl
  induction bl with
  | nil =>
    intro k acc
    cases acc
    simp [processBatches, sumDel, sumSav, errList]
  | cons b r ih =>
    intro k acc
    cases acc with
    | mk d s e t =>
      cases h : cr k with
      | none =>
        simp only [processBatches, h, sumDel, sumSav, errList, Bool.false_eq_true, if_false]
        rw [ih]
        simp [Nat.add_assoc]
      | some m =>
        simp only [processBatches, h, sumDel, sumSav, errList, Bool.false_eq_true, if_false]
        rw [ih]
        simp [List.append_assoc]

theorem processBatches_dry (ua : List AssetInfo) (cr : Nat → Option String) :
    ∀ (bl : List (List String)) (k : Nat) (acc : DelAcc),
    processBatches ua true cr k bl acc =
      ⟨acc.deleted + (bl.map List.length).sum,
       acc.saved + (bl.map (batchSavings ua)).sum,
       acc.errors, acc.txs⟩ := by
  intro bl
  induction bl with
  | nil =>
    intro k acc
    cases acc
    simp [processBatches]
  | cons b r ih =>
    intro k acc
    cases acc with
    | mk d s e t =>
      simp only [processBatches, if_true, List.map_cons, List.sum_cons]
      rw [ih]
      simp [Nat.add_assoc]

theorem sumDel_append (cr : Nat → Option String) :
    ∀ (xs ys : List (List String)) (k : Nat),
    sumDel cr k (xs ++ ys) = sumDel cr k xs + sumDel cr (k + xs.length) ys := by
  intro xs
  induction xs with
  | nil => intro ys k; simp [sumDel]
  | cons b r ih =>
    intro ys k
    simp only [List.cons_append, sumDel, List.length_cons, List.append_eq]
    rw [ih, show k + (r.length + 1) = (k + 1) + r.length by omega]
    ring

theorem sumSav_append (ua : List AssetInfo) (cr : Nat → Option String) :
    ∀ (xs ys : List (List String)) (k : Nat),
    sumSav ua cr k (xs ++ ys) = sumSav ua cr k xs + sumSav ua cr (k + xs.length) ys := by
  intro xs
  induction xs with
  | nil => intro ys k; simp [sumSav]
  | cons b r ih =>
    intro ys k
    simp only [List.cons_append, sumSav, List.length_cons, List.append_eq]
    rw [ih, show k + (r.length + 1) = (k + 1) + r.length by omega]
    ring

theorem errList_append (cr : Nat → Option String) :
    ∀ (xs ys : List (List String)) (k : Nat),
    errList cr k (xs ++ ys) = errList cr k xs ++ errList cr (k + xs.length) ys := by
  intro xs
  induction xs with
  | nil => intro ys k; simp [errList]
  | cons b r ih =>
    intro ys k
    simp only [List.cons_append, errList, List.length_cons, List.append_eq]
    rw [ih, show k + (r.length + 1) = (k + 1) + r.length by omega]
    simp [List.append_assoc]

theorem sumDel_eq_sum_of_none (cr : Nat → Option String) :
    ∀ (bl : List (List String)) (k : Nat),
    (∀ j, j < bl.length → cr (k + j) = none) →
    sumDel cr k bl = (bl.map List.length).sum := by
  intro bl
  induction bl with
  | nil => intro k _; rfl
  | cons b r ih =>
    intro k h
    have h0 : cr k = none := by simpa using h 0 (by simp)
    simp only [sumDel, h0, List.map_cons, List.sum_cons]
    rw [ih]
    intro j hj
    have hh := h (j + 1) (by simp only [List.length_cons]; omega)
    rwa [show k + (j + 1) = (k + 1) + j by omega] at hh

theorem sumSav_eq_sum_of_none (ua : List AssetInfo) (cr : Nat → Option String) :
    ∀ (bl : List (List String)) (k : Nat),
    (∀ j, j < bl.length → cr (k + j) = none) →
    sumSav ua cr k bl = (bl.map (batchSavings ua)).sum := by
  intro bl
  induction bl with
  | nil => intro k _; rfl
  | cons b r ih =>
    intro k h
    have h0 : cr k = none := by simpa using h 0 (by simp)
    simp only [sumSav, h0, List.map_cons, List.sum_cons]
    rw [ih]
    intro j hj
    have hh := h (j + 1) (by simp only [List.length_cons]; omega)
    rwa [show k + (j + 1) = (k + 1) + j by omega] at hh

theorem errList_eq_nil_of_none (cr : Nat → Option String) :
    ∀ (bl : List (List String)) (k : Nat),
    (∀ j, j < bl.length → cr (k + j) = none) →
    errList cr k bl = [] := by
  intro bl
  induction bl with
  | nil => intro k _; rfl
  | cons b r ih =>
    intro k h
    have h0 : cr k = none := by simpa using h 0 (by simp)
    simp only [errList, h0, List.nil_append]
    apply ih
    intro j hj
    have hh := h (j + 1) (by simp only [List.length_cons]; omega)
    rwa [show k + (j + 1) = (k + 1) + j by omega] at hh

/-! ### Savings algebra -/

theorem foldl_add_sizes : ∀ (l : List AssetInfo) (n : Nat),
    l.foldl (fun sum a => sum + sizeOrZero a) n = n + (l.map sizeOrZero).sum := by
  intro l
  induction l with
  | nil => intro n; simp
  | cons a r ih => intro n; simp [List.foldl_cons, ih, Nat.add_assoc]

theorem sum_filter_if {α : Type} (p : α → Bool) (g : α → Nat) :
    ∀ (l : List α),
    ((l.filter p).map g).sum = (l.map fun a => if p a then g a else 0).sum := by
  intro l
  induction l with
  | nil => rfl
  | cons a r ih => by_cases h : p a <;> simp [List.filter_cons, h, ih]

theorem batchSavings_eq_sum (ua : List AssetInfo) (batch : List String) :
    batchSavings ua batch =
      (ua.map fun a => if decide (a.id ∈ batch) then sizeOrZero a else 0).sum := by
  unfold batchSavings
  rw [foldl_add_sizes, Nat.zero_add, sum_filter_if]

theorem batchSavings_nil (ua : List AssetInfo) : batchSavings ua [] = 0 := by
  rw [batchSavings_eq_sum]
  simp

theorem batchSavings_append (ua : List AssetInfo) (s t : List String)
    (hdisj : ∀ x ∈ s, x ∉ t) :
    batchSavings ua (s ++ t) = batchSavings ua s + batchSavings ua t := by
  rw [batchSavings_eq_sum, batchSavings_eq_sum, batchSavings_eq_sum]
  induction ua with
  | nil => rfl
  | cons a r ih =>
    simp only [List.map_cons, List.sum_cons]
    have hpt : (if decide (a.id ∈ s ++ t) then sizeOrZero a else 0)
        = (if decide (a.id ∈ s) then sizeOrZero a else 0)
          + (if decide (a.id ∈ t) then sizeOrZero a else 0) := by
      by_cases hs : a.id ∈ s
      · have ht : a.id ∉ t := hdisj _ hs
        simp [hs, ht, List.mem_append]
      · by_cases ht : a.id ∈ t <;> simp [hs, ht, List.mem_append]
    rw [hpt, ih]
    ring

theorem batchSavings_flatten (ua : List AssetInfo) :
    ∀ (bl : List (List String)), (bl.flatten).Nodup →
    (bl.map (batchSavings ua)).sum = batchSavings ua bl.flatten := by
  intro bl
  induction bl with
  | nil => intro _; simp [batchSavings_nil]
  | cons b r ih =>
    intro hnd
    simp only [List.flatten_cons] at hnd ⊢
    have h3 := List.nodup_append.1 hnd
    simp only [List.map_cons, List.sum_cons]
    rw [ih h3.2.1, batchSavings_append ua _ _ h3.2.2]

theorem handleDelete_run (bs : Nat) (dry : Bool) (cr : Nat → Option String) (st : UIState)
    (hne : st.selected.isEmpty = false) :
    (handleDelete bs dry cr st).2.1
      = some ⟨(runDel st.unusedAssets dry cr bs st.selected).deleted,
              (runDel st.unusedAssets dry cr bs st.selected).saved,
              (runDel st.unusedAssets dry cr bs st.selected).errors⟩ ∧
    (handleDelete bs dry cr st).2.2 = (runDel st.unusedAssets dry cr bs st.selected).txs := by
  unfold handleDelete runDel
  rw [hne]
  exact ⟨rfl, rfl⟩

/-- Claim C9: under batch size ≥ 1 the batching of the selection is total
and partitions the identifiers into exactly ⌈n/batchSize⌉ consecutive
order-preserving batches, every batch full except possibly the last
(each nonempty and of size ≤ batchSize). -/
theorem chunking_spec (bs : Nat) (sel : List String) (hbs : 0 < bs) :
    (chunks bs sel).flatten = sel ∧
    (chunks bs sel).length = (sel.length + bs - 1) / bs ∧
    (∀ b ∈ (chunks bs sel).dropLast, b.length = bs) ∧
    (∀ b ∈ chunks bs sel, b ≠ [] ∧ b.length ≤ bs) :=
  ⟨chunks_flatten bs hbs sel,
   chunksAux_length bs hbs sel.length sel (le_refl _),
   chunksAux_dropLast bs hbs sel.length sel (le_refl _),
   fun b hb => chunksAux_mem bs hbs sel.length sel b hb⟩

/-- Witness for C9 at batch size 2 over five identifiers. -/
theorem chunking_spec_witness :
    0 < 2 ∧
    (chunks 2 ["a", "b", "c", "d", "e"]).flatten = ["a", "b", "c", "d", "e"] ∧
    (chunks 2 ["a", "b", "c", "d", "e"]).length
      = ((["a", "b", "c", "d", "e"] : List String).length + 2 - 1) / 2 :=
  ⟨by decide,
   (chunking_spec 2 ["a", "b", "c", "d", "e"] (by decide)).1,
   (chunking_spec 2 ["a", "b", "c", "d", "e"] (by decide)).2.1⟩

/-- Claim C1: when the selection is batched and exactly the batch at
0-based position `pre.length` fails to commit while every other batch
succeeds, the run deletes everything except the failed batch
(`deletedCount = n - |bk|`), the saved space excludes exactly the failed
batch's sizes, the errors list is the single entry carrying the failed
batch's 1-based number, and every batch (also after the failure) is
still submitted — the loop does not abort. -/
theorem batch_failure_isolation (ua : List AssetInfo) (sel : List String) (bs : Nat)
    (msg : String) (pre post : List (List String)) (bk : List String)
    (hbs : 0 < bs) (hnd : sel.Nodup)
    (hch : chunks bs sel = pre ++ bk :: post) :
    (runDel ua false (singleFail pre.length msg) bs sel).deleted
      = sel.length - bk.length ∧
    (runDel ua false (singleFail pre.length msg) bs sel).saved + batchSavings ua bk
      = batchSavings ua sel ∧
    (runDel ua false (singleFail pre.length msg) bs sel).errors
      = [batchErr pre.length msg] ∧
    (runDel ua false (singleFail pre.length msg) bs sel).txs = pre ++ bk :: post := by
  have hflat : (pre ++ bk :: post).flatten = sel := by
    rw [← hch]
    exact chunks_flatten bs hbs sel
  have hpre : ∀ j, j < pre.length → singleFail pre.length msg (0 + j) = none := by
    intro j hj
    simp only [singleFail, Nat.zero_add]
    rw [if_neg (by omega)]
  have hpost : ∀ j, j < post.length → singleFail pre.length msg (pre.length + 1 + j) = none := by
    intro j hj
    simp only [singleFail]
    rw [if_neg (by omega)]
  have hmid : singleFail pre.length msg pre.length = some msg := by
    simp [singleFail]
  have hlen : (pre.map List.length).sum + (bk.length + (post.map List.length).sum)
      = sel.length := by
    have h := congrArg List.length hflat
    rwa [List.length_flatten, List.map_append, List.sum_append, List.map_cons,
      List.sum_cons] at h
  unfold runDel
  rw [hch, processBatches_nonDry]
  refine ⟨?_, ?_, ?_, ?_⟩
  · show 0 + sumDel (singleFail pre.length msg) 0 (pre ++ bk :: post) = sel.length - bk.length
    rw [Nat.zero_add, sumDel_append, sumDel_eq_sum_of_none _ _ _ hpre, Nat.zero_add]
    show (pre.map List.length).sum + sumDel (singleFail pre.length msg) pre.length (bk :: post)
        = sel.length - bk.length
    simp only [sumDel, hmid]
    rw [sumDel_eq_sum_of_none]
    · omega
    · intro j hj
      exact hpost j hj
  · show 0 + sumSav ua (singleFail pre.length msg) 0 (pre ++ bk :: post) + batchSavings ua bk
        = batchSavings ua sel
    rw [Nat.zero_add, sumSav_append, sumSav_eq_sum_of_none _ _ _ _ hpre, Nat.zero_add]
    show (pre.map (batchSavings ua)).sum
          + sumSav ua (singleFail pre.length msg) pre.length (bk :: post)
          + batchSavings ua bk
        = batchSavings ua sel
    simp only [sumSav, hmid]
    rw [sumSav_eq_sum_of_none]
    · have hsum : ((pre ++ bk :: post).map (batchSavings ua)).sum = batchSavings ua sel := by
        rw [batchSavings_flatten ua _ (hflat ▸ hnd), hflat]
      rw [List.map_append, List.sum_append, List.map_cons, List.sum_cons] at hsum
      omega
    · intro j hj
      exact hpost j hj
  · show ([] : List String) ++ errList (singleFail pre.length msg) 0 (pre ++ bk :: post)
        = [batchErr pre.length msg]
    rw [List.nil_append, errList_append, errList_eq_nil_of_none _ _ _ hpre, Nat.zero_add,
      List.nil_append]
    show errList (singleFail pre.length msg) pre.length (bk :: post) = [batchErr pre.length msg]
    simp only [errList, hmid]
    rw [errList_eq_nil_of_none]
    · simp
    · intro j hj
      exact hpost j hj
  · show ([] : List (List String)) ++ (pre ++ bk :: post) = pre ++ bk :: post
    exact List.nil_append _

/-- Witness for C1: five ids in three batches of size 2, the middle batch
failing. -/
theorem batch_failure_isolation_witness :
    (runDel w1Assets false (singleFail 1 "boom") 2 ["a", "b", "c", "d", "e"]).deleted = 3 ∧
    (runDel w1Assets false (singleFail 1 "boom") 2 ["a", "b", "c", "d", "e"]).saved
        + batchSavings w1Assets ["c", "d"]
      = batchSavings w1Assets ["a", "b", "c", "d", "e"] ∧
    (runDel w1Assets false (singleFail 1 "boom") 2 ["a", "b", "c", "d", "e"]).errors
      = [batchErr 1 "boom"] ∧
    (runDel w1Assets false (singleFail 1 "boom") 2 ["a", "b", "c", "d", "e"]).txs
      = [["a", "b"]] ++ ["c", "d"] :: [["e"]] :=
  batch_failure_isolation w1Assets ["a", "b", "c", "d", "e"] 2 "boom"
    [["a", "b"]] [["e"]] ["c", "d"] (by decide) (by decide) (by decide)

/-- Counterexample to C3 as stated: a dry run over the non-empty
selection `["z"]` of a single asset whose stored size is unknown
(`asset.size || 0` gives 0) issues no delete transaction and reports
`deletedCount = 1`, but `savedSpaceBytes = 0` — so the claimed
"nonzero deletedCount/savedSpaceBytes for a non-empty selection" fails
on its savedSpaceBytes half. -/
theorem dry_run_zero_saved_counterexample :
    c3State.selected ≠ [] ∧
    (handleDelete 10 true (fun _ => none) c3State).2.2 = [] ∧
    (handleDelete 10 true (fun _ => none) c3State).2.1
      = some { deleted := 1, savedSpace := 0, errors := [] } := by
  decide

/-- Claim C3 (amended): a dry-run deletion over a non-empty selection
issues no delete transaction, yet reports deletedCount equal to the
number of selected identifiers (hence nonzero) and savedSpaceBytes equal
to the sum of the selected assets' known sizes — which can be zero when
every selected asset's size is zero or unknown. -/
theorem dry_run_behavior (bs : Nat) (cr : Nat → Option String) (st : UIState)
    (hbs : 0 < bs) (hne : st.selected ≠ []) (hnd : st.selected.Nodup) :
    (handleDelete bs true cr st).2.2 = [] ∧
    (handleDelete bs true cr st).2.1
      = some ⟨st.selected.length, batchSavings st.unusedAssets st.selected, []⟩ ∧
    0 < st.selected.length := by
  have hie : st.selected.isEmpty = false := by
    cases hsel : st.selected with
    | nil => rw [hsel] at hne; exact absurd rfl hne
    | cons x r => rfl
  have hrd : runDel st.unusedAssets true cr bs st.selected
      = ⟨st.selected.length, batchSavings st.unusedAssets st.selected, [], []⟩ := by
    unfold runDel
    rw [processBatches_dry]
    have h1 : ((chunks bs st.selected).map List.length).sum = st.selected.length := by
      rw [← List.length_flatten, chunks_flatten bs hbs]
    have h2 : ((chunks bs st.selected).map (batchSavings st.unusedAssets)).sum
        = batchSavings st.unusedAssets st.selected := by
      rw [batchSavings_flatten st.unusedAssets _
        ((chunks_flatten bs hbs st.selected).symm ▸ hnd)]
      rw [chunks_flatten bs hbs]
    rw [h1, h2]
    simp
  have hrun := handleDelete_run bs true cr st hie
  refine ⟨?_, ?_, List.length_pos.2 hne⟩
  · rw [hrun.2, hrd]
  · rw [hrun.1, hrd]

/-- Witness for the amended C3: dry run with batch size 3 over the
selection `["w"]` of a 5-byte asset. -/
theorem dry_run_behavior_witness :
    (handleDelete 3 true (fun _ => none) c3wState).2.2 = [] ∧
    (handleDelete 3 true (fun _ => none) c3wState).2.1
      = some ⟨c3wState.selected.length, batchSavings c3wState.unusedAssets c3wState.selected,
              []⟩ ∧
    0 < c3wState.selected.length :=
  dry_run_behavior 3 (fun _ => none) c3wState (by decide) (by decide) (by decide)

/-- Counterexample to C4 as stated: batch size 1 over selection
`["a", "b"]` where the second batch (containing only `b`) fails — the
run records the failure of batch 2 and only 1 deletion, yet `b` is
removed from the candidate list anyway: the list afterwards is `[]`,
not `[cAssetB]` as the claim ("identifiers in failed batches are not
among the removed") would require. -/
theorem delete_keeps_failed_counterexample :
    (handleDelete 1 false c4cr c4State).2.1
      = some { deleted := 1, savedSpace := 1, errors := [batchErr 1 "boom"] } ∧
    (handleDelete 1 false c4cr c4State).1.unusedAssets = [] ∧
    (handleDelete 1 false c4cr c4State).1.unusedAssets ≠ [cAssetB] := by
  decide

/-- Claim C4 (amended): after a deletion run over a non-empty selection
the candidate list equals the prior list minus ALL selected identifiers
— including those in failed batches — and the Selection is cleared; a
dry run has the same state effect. -/
theorem delete_removes_all_selected (bs : Nat) (dry : Bool) (cr : Nat → Option String)
    (st : UIState) (hne : st.selected ≠ []) :
    (handleDelete bs dry cr st).1.unusedAssets
      = st.unusedAssets.filter (fun a => !(decide (a.id ∈ st.selected))) ∧
    (handleDelete bs dry cr st).1.selected = [] := by
  have hie : st.selected.isEmpty = false := by
    cases hsel : st.selected with
    | nil => rw [hsel] at hne; exact absurd rfl hne
    | cons x r => rfl
  have hst := handleDelete_state bs dry cr st
  rw [if_neg (by simp [hie])] at hst
  rw [hst]
  exact ⟨rfl, rfl⟩

/-- Witness for the amended C4 at the counterexample's input. -/
theorem delete_removes_all_selected_witness :
    (handleDelete 1 false c4cr c4State).1.unusedAssets
      = c4State.unusedAssets.filter (fun a => !(decide (a.id ∈ c4State.selected))) ∧
    (handleDelete 1 false c4cr c4State).1.selected = [] :=
  delete_removes_all_selected 1 false c4cr c4State (by decide)
